import Mathlib

/-!
# Verification of the Viincci-RAG research spider and content cleaner

Shallow embedding of the logic in `src/V4/Spider.py`
(`UniversalResearchSpider`) and `src/V4/ArtGenSys.py` (`ContentCleaner`),
over `List Char` text, `ℤ` scores and `ℚ` reliability values.

Naming: Lean definitions keep the Python names (snake_case turned into
lowerCamelCase where Lean style demands it).
-/

namespace Viincci

/-- Characters treated as whitespace by Python's `str.strip` / `\s` for the
ASCII range handled by this code base. -/
def isSpacePy (c : Char) : Bool :=
  c = ' ' || c = '\t' || c = '\n' || c = '\r' || c = '\x0b' || c = '\x0c'

/-- ASCII decimal digit, Python's `\d` for the ASCII inputs used here. -/
def isDigitPy (c : Char) : Bool :=
  '0' ≤ c && c ≤ '9'

/-- ASCII alphanumeric, Python's `[a-zA-Z0-9]`. -/
def isAlnumPy (c : Char) : Bool :=
  ('a' ≤ c && c ≤ 'z') || ('A' ≤ c && c ≤ 'Z') || isDigitPy c

/-- ASCII hexadecimal digit, Python's `[0-9a-fA-F]`. -/
def isHexPy (c : Char) : Bool :=
  isDigitPy c || ('a' ≤ c && c ≤ 'f') || ('A' ≤ c && c ≤ 'F')

/-- ASCII lowercase letter: Python's `str.islower` on the single ASCII
characters this pipeline sees. -/
def isLowerPy (c : Char) : Bool :=
  'a' ≤ c && c ≤ 'z'

/-- ASCII uppercase letter, Python's `[A-Z]`. -/
def isUpperPy (c : Char) : Bool :=
  'A' ≤ c && c ≤ 'Z'

/-- Sentence-ending punctuation, Python's `[.!?]`. -/
def isPunctPy (c : Char) : Bool :=
  c = '.' || c = '!' || c = '?'

/-- The characters of a string literal, the text representation used
throughout this development. -/
def chars (s : String) : List Char := s.data

/-- Python `str.lower` (ASCII). -/
def lowerL (s : List Char) : List Char := s.map Char.toLower

/-- Python `a.startswith(b)`. -/
def startsWithL : List Char → List Char → Bool
  | [], _ => true
  | _ :: _, [] => false
  | p :: ps, c :: cs => p = c && startsWithL ps cs

/-- Python substring test `pat in s` (contiguous substring). -/
def containsSub (pat : List Char) : List Char → Bool
  | [] => pat.isEmpty
  | c :: cs => startsWithL pat (c :: cs) || containsSub pat cs

/-- Python `s.endswith(pat)`. -/
def endsWithL (pat s : List Char) : Bool :=
  startsWithL pat.reverse s.reverse

/-- Python `str.lstrip()`. -/
def lstripL (s : List Char) : List Char := s.dropWhile isSpacePy

/-- Python `str.rstrip()`. -/
def rstripL (s : List Char) : List Char := (s.reverse.dropWhile isSpacePy).reverse

/-- Python `str.strip()`. -/
def stripL (s : List Char) : List Char := rstripL (lstripL s)

/-- Python `text.split(sep)` for a single separator character
(keeps empty pieces, never returns `[]`). -/
def splitOnC (sep : Char) : List Char → List (List Char)
  | [] => [[]]
  | c :: cs =>
    if c = sep then [] :: splitOnC sep cs
    else
      match splitOnC sep cs with
      | [] => [[c]]
      | p :: ps => (c :: p) :: ps

/-- Python `sep.join(parts)` for a single-character separator. -/
def joinC (sep : Char) : List (List Char) → List Char
  | [] => []
  | [p] => p
  | p :: ps => p ++ sep :: joinC sep ps

/-- Python `sep.join(parts)` for a string separator. -/
def joinSep (sep : List Char) : List (List Char) → List Char
  | [] => []
  | [p] => p
  | p :: ps => p ++ sep ++ joinSep sep ps

/-- Python `text.split()` (split on whitespace runs, dropping empties);
`fuel`, instantiated with the text length, bounds the recursion. -/
def splitWsAux : Nat → List Char → List (List Char)
  | 0, _ => []
  | _ + 1, [] => []
  | fuel + 1, c :: cs =>
    if isSpacePy c then splitWsAux fuel cs
    else
      (c :: cs.takeWhile (fun d => !isSpacePy d)) ::
        splitWsAux fuel (cs.dropWhile (fun d => !isSpacePy d))

/-- Python `text.split()` (split on whitespace runs, dropping empties). -/
def splitWs (s : List Char) : List (List Char) :=
  splitWsAux s.length s

/-- Decidable equality for `Except`, used to state response-oracle
equations. -/
instance {ε α : Type} [DecidableEq ε] [DecidableEq α] : DecidableEq (Except ε α) :=
  fun a b =>
    match a, b with
    | .ok x, .ok y =>
      if h : x = y then isTrue (by rw [h]) else isFalse (by simp [h])
    | .error x, .error y =>
      if h : x = y then isTrue (by rw [h]) else isFalse (by simp [h])
    | .ok _, .error _ => isFalse (by simp)
    | .error _, .ok _ => isFalse (by simp)

/-! ## URL hostname extraction

Models `urllib.parse.urlparse(url).netloc` (Python standard library) for the
absolute URLs the spider handles: an optional `scheme:` prefix followed by
`//host/...`; the netloc is everything between `//` and the next `/`, `?`
or `#`.  A URL without a `//` part has an empty netloc. -/

/-- Characters allowed in a URL scheme after the leading letter. -/
def isSchemeChar (c : Char) : Bool :=
  isAlnumPy c || c = '+' || c = '-' || c = '.'

/-- Valid URL scheme: a letter followed by scheme characters. -/
def isValidScheme : List Char → Bool
  | [] => false
  | c :: cs => (('a' ≤ c && c ≤ 'z') || ('A' ≤ c && c ≤ 'Z')) && cs.all isSchemeChar

/-- `urllib.parse.urlparse(url).netloc` (see section comment above). -/
def netloc (url : List Char) : List Char :=
  let pre := url.takeWhile (fun c => c != ':')
  let post := url.dropWhile (fun c => c != ':')
  let rest := if post != [] && isValidScheme pre then post.tail else url
  if startsWithL (chars "//") rest then
    (rest.drop 2).takeWhile (fun c => c != '/' && c != '?' && c != '#')
  else []

/-! ## Reliability scores and tiers (`Spider.py`) -/

/-- The literal `0.5` of the Python source (the default reliability), in
normalized constructor form so that concrete evaluation reduces (the `ℚ`
field operations are kernel-irreducible). -/
def half : ℚ := ⟨1, 2, by decide, by decide⟩

theorem half_eq : half = 1/2 := by
  norm_num [half, Rat.mk'_eq_divInt, Rat.divInt_eq_div]

/-- First-match association lookup: models a Python `dict` lookup in the
flattened domain-reliability map (`self.domain_reliability`), whose keys are
unique. -/
def lookupRel : List (List Char × ℚ) → List Char → Option ℚ
  | [], _ => none
  | (k, v) :: rest, d => if k = d then some v else lookupRel rest d

/-- Python `int()` on a number: truncation toward zero. -/
def pyInt (q : ℚ) : ℤ :=
  if q < 0 then -⌊-q⌋ else ⌊q⌋

/-- Reliability tiers returned by `_get_reliability_level`. -/
inductive RelLevel
  | veryHigh
  | high
  | medium
  | low
deriving DecidableEq, Repr

/-- `UniversalResearchSpider._get_reliability_level` (Spider.py lines
465-474). -/
def getReliabilityLevel (score : ℚ) : RelLevel :=
  if 0.95 ≤ score then .veryHigh
  else if 0.85 ≤ score then .high
  else if 0.75 ≤ score then .medium
  else .low

/-- `UniversalResearchSpider._calculate_reliability` (Spider.py lines
450-463): base score from the flattened map with default 0.5, keyword bonus
capped at 0.1, length bonus 0.05, clamped to 1.0. -/
def calculateReliability (reliability : List (List Char × ℚ))
    (keywords : List (List Char)) (domain content : List Char) : ℚ :=
  let base := (lookupRel reliability domain).getD half
  let nmatch : ℕ := (keywords.filter (fun kw => containsSub kw (lowerL content))).length
  let base := base + min (1/10 : ℚ) (nmatch * (2/100 : ℚ))
  let base := if 1000 < content.length then base + 5/100 else base
  min 1 base

/-! ## Per-domain cap and academic-domain bonus (`Spider.py`) -/

/-- The per-hostname extraction cap of `research` (Spider.py line 536):
`5 if 'edu' in domain or 'ac.' in domain else 3`. -/
def maxPerDomain (domain : List Char) : Nat :=
  if containsSub (chars "edu") domain || containsSub (chars "ac.") domain then 5 else 3

/-- The educational-domain score bonus of `_filter_relevant_results`
(Spider.py lines 286-287):
`if any(edu in domain for edu in ['.edu', '.ac.', 'university', 'institute']): score += 15`. -/
def eduDomainBonus (domain : List Char) : ℤ :=
  if [chars ".edu", chars ".ac.", chars "university", chars "institute"].any
      (fun m => containsSub m domain) then 15 else 0

/-! ## Query construction (`Spider.py` `_build_search_queries`) -/

/-- Query priorities. -/
inductive Priority
  | high
  | medium
  | low
deriving DecidableEq, Repr

/-- `UniversalResearchSpider._build_search_queries` (Spider.py lines
187-215).  The unused `hint` parameter of the Python method is omitted.
`keywordsAll` is `self.keywords`; the method keeps only the top 3. -/
def buildSearchQueries (term : List Char) (keywordsAll : List (List Char)) :
    List (Priority × List Char) :=
  let keywords := keywordsAll.take 3
  (keywords.flatMap fun keyword =>
    [(Priority.high, term ++ chars " " ++ keyword ++ chars " site:edu"),
     (Priority.high, term ++ chars " " ++ keyword ++ chars " site:ac.uk"),
     (Priority.high, term ++ chars " " ++ keyword ++ chars " site:ac.za")]) ++
  (keywords.flatMap fun keyword =>
    [(Priority.medium, term ++ chars " " ++ keyword ++ chars " research"),
     (Priority.medium, term ++ chars " " ++ keyword ++ chars " institute")]) ++
  [(Priority.medium, term ++ chars " " ++ joinSep (chars " ") (keywords.take 2))] ++
  [(Priority.low, term ++ chars " site:wikipedia.org"),
   (Priority.low, term ++ chars " site:britannica.com")]

/-! ## Search results and result filtering (`Spider.py`) -/

/-- Document types a stored search result can carry (`_is_supported_document`
returns `'pdf'`, `'text'` or `'html'` for supported URLs). -/
inductive DocType
  | pdf
  | text
  | html
deriving DecidableEq, Repr

/-- A stored search result (the dict built in `search_serpapi`, lines
163-170; the `query` field is carried along in Python but never read
afterwards, so it is omitted here). -/
structure SearchResult where
  url : List Char
  title : List Char
  snippet : List Char
  docType : DocType
  priority : Priority
deriving DecidableEq, Repr

/-- The spider's configuration-derived state used by the functions under
verification (`__init__`, lines 50-66): `keywords`, `skip_domains`, the
flattened `domain_reliability` map, `max_sources` and
`unsupported_extensions`. -/
structure SpiderConfig where
  keywords : List (List Char)
  skipDomains : List (List Char)
  domainReliability : List (List Char × ℚ)
  maxSources : Nat
  unsupportedExtensions : List (List Char)

/-- The scoring components of `_filter_relevant_results` other than the
domain-reliability, educational-domain and pdf bonuses (Spider.py lines
254-278): priority weight, exact-term matches, first-word match and
keyword matches. -/
def baseScore (cfg : SpiderConfig) (term : List Char) (r : SearchResult) : ℤ :=
  let title := lowerL r.title
  let snippet := lowerL r.snippet
  let termL := lowerL term
  let termWords := splitWs (lowerL term)
  let mainTerm := termWords.headD []
  let priorityScore : ℤ :=
    match r.priority with
    | .high => 30
    | .medium => 20
    | .low => 10
  let termTitle : ℤ := if containsSub termL title then 15 else 0
  let termSnippet : ℤ := if containsSub termL snippet then 10 else 0
  let mainScore : ℤ :=
    if mainTerm ≠ [] ∧ (containsSub mainTerm title || containsSub mainTerm snippet) then 8
    else 0
  let kwScore : ℤ :=
    ((cfg.keywords.take 5).map (fun kw =>
      (if containsSub kw title then (5 : ℤ) else 0) +
      (if containsSub kw snippet then (3 : ℤ) else 0))).sum
  priorityScore + termTitle + termSnippet + mainScore + kwScore

/-- The composite score of one candidate result in
`_filter_relevant_results` (Spider.py lines 254-291).  The reliability
component is added only when the hostname is a key of the flattened map
(`if domain in self.domain_reliability`, lines 282-283). -/
def scoreOf (cfg : SpiderConfig) (term : List Char) (r : SearchResult) : ℤ :=
  let domain := netloc r.url
  let relScore : ℤ :=
    match lookupRel cfg.domainReliability domain with
    | some v => pyInt (v * 20)
    | none => 0
  baseScore cfg term r + relScore + eduDomainBonus domain +
    (if r.docType = .pdf then 8 else 0)

/-- The composite score as the SPEC words it (for the C1 refinement
comparison, not translated from the source): the reliability component is
`floor(reliability_score_of_hostname × 20)` where the score of a hostname
absent from the flattened map defaults to 0.5. -/
def scoreSpecC1 (cfg : SpiderConfig) (term : List Char) (r : SearchResult) : ℤ :=
  let domain := netloc r.url
  let relScore : ℤ := pyInt (((lookupRel cfg.domainReliability domain).getD half) * 20)
  baseScore cfg term r + relScore + eduDomainBonus domain +
    (if r.docType = .pdf then 8 else 0)

/-- The deduplication / skip-domain / scoring pass of
`_filter_relevant_results` (Spider.py lines 238-293): walk the input in
order with the `seen_urls` set, drop repeated URLs and URLs containing a
skip-domain substring, and pair each kept result with its score.
`seen` models the `seen_urls` set (only membership is ever used). -/
def scoreLoop (cfg : SpiderConfig) (term : List Char) :
    List SearchResult → List (List Char) → List (ℤ × SearchResult)
  | [], _ => []
  | r :: rs, seen =>
    if r.url ∈ seen then scoreLoop cfg term rs seen
    else if cfg.skipDomains.any (fun sk => containsSub sk (lowerL r.url)) then
      scoreLoop cfg term rs seen
    else (scoreOf cfg term r, r) :: scoreLoop cfg term rs (r.url :: seen)

/-- Stable insertion of `x` into `l`, placing `x` before the first element
whose key is not greater: used to model Python's stable
`list.sort(key=..., reverse=True)`. -/
def insertDesc {α κ : Type} [LinearOrder κ] (key : α → κ) (x : α) : List α → List α
  | [] => [x]
  | h :: t => if key x < key h then h :: insertDesc key x t else x :: h :: t

/-- Stable descending sort by key.  Python's `list.sort` is a stable sort;
with `reverse=True` it produces the descending ordering in which elements
with equal keys keep their original relative order.  Stable sortedness
determines the output uniquely, so this insertion sort computes exactly
the list Python's sort produces. -/
def sortDesc {α κ : Type} [LinearOrder κ] (key : α → κ) : List α → List α
  | [] => []
  | x :: xs => insertDesc key x (sortDesc key xs)

/-- `UniversalResearchSpider._filter_relevant_results` (Spider.py lines
233-296): dedup/skip/score, stable descending sort by score, keep the
results scoring strictly more than 15. -/
def filterRelevantResults (cfg : SpiderConfig) (term : List Char)
    (results : List SearchResult) : List SearchResult :=
  let scored := scoreLoop cfg term results []
  let sorted := sortDesc (fun p => p.1) scored
  (sorted.filter (fun p => decide (15 < p.1))).map (fun p => p.2)

/-! ## Search execution (`Spider.py` `search_serpapi`) -/

/-- One organic result returned by the external search API
(`result.get('link'/'title'/'snippet', '')`, lines 154-166). -/
structure RawResult where
  link : List Char
  title : List Char
  snippet : List Char
deriving DecidableEq, Repr

/-- `UniversalResearchSpider._is_supported_document` (Spider.py lines
217-231), with `none` for the unsupported case. -/
def isSupportedDocument (cfg : SpiderConfig) (url : List Char) : Option DocType :=
  let urlLower := lowerL url
  if endsWithL (chars ".pdf") urlLower || containsSub (chars "pdf") urlLower then some .pdf
  else if endsWithL (chars ".txt") urlLower then some .text
  else if cfg.unsupportedExtensions.any (fun ext => endsWithL ext urlLower) then none
  else some .html

/-- The inner `for result in organic_results` loop of `search_serpapi`
(Spider.py lines 154-170): skip URLs already accumulated, skip unsupported
documents, append the rest tagged with the query's priority. -/
def processRaws (cfg : SpiderConfig) (priority : Priority) :
    List RawResult → List SearchResult → List SearchResult
  | [], acc => acc
  | raw :: raws, acc =>
    if acc.any (fun r => r.url = raw.link) then processRaws cfg priority raws acc
    else
      match isSupportedDocument cfg raw.link with
      | some dt =>
        processRaws cfg priority raws
          (acc ++ [{ url := raw.link, title := raw.title, snippet := raw.snippet,
                     docType := dt, priority := priority }])
      | none => processRaws cfg priority raws acc

/-- The `for priority, query in queries` loop of `search_serpapi` (Spider.py
lines 133-176).  `resp i` is the outcome of the HTTP request issued for the
i-th query: `.ok raws` a successful response's `organic_results`, `.error`
any exception (timeout, HTTP error status, malformed body).  The whole loop
sits inside one `try`; an exception reaches the handler at line 183, which
returns `[]` — modeled by the `none` outcome.  `break` once `max_sources`
results are accumulated (line 173). -/
def searchLoop (cfg : SpiderConfig) (resp : Nat → Except Unit (List RawResult)) :
    List (Priority × List Char) → Nat → List SearchResult → Option (List SearchResult)
  | [], _, acc => some acc
  | (pri, _) :: qs, i, acc =>
    match resp i with
    | .error _ => none
    | .ok raws =>
      let acc' := processRaws cfg pri raws acc
      if cfg.maxSources ≤ acc'.length then some acc'
      else searchLoop cfg resp qs (i + 1) acc'

/-- Specification helper (not a source translation): the results the query
loop accumulates over a query list when every response succeeds, with no
break — used to phrase "the loop has not yet collected `max_sources`
results when it reaches query `i`".  On an error response it stops and
returns the accumulation so far. -/
def accAfter (cfg : SpiderConfig) (resp : Nat → Except Unit (List RawResult)) :
    List (Priority × List Char) → Nat → List SearchResult → List SearchResult
  | [], _, acc => acc
  | (pri, _) :: qs, i, acc =>
    match resp i with
    | .error _ => acc
    | .ok raws => accAfter cfg resp qs (i + 1) (processRaws cfg pri raws acc)

/-- `UniversalResearchSpider.search_serpapi` (Spider.py lines 114-185):
build the queries, run the query loop, and on success filter the
accumulated results and cap them to `max_sources + 10`; any exception
yields `[]`. -/
def searchSerpapi (cfg : SpiderConfig) (term : List Char)
    (resp : Nat → Except Unit (List RawResult)) : List SearchResult :=
  match searchLoop cfg resp (buildSearchQueries term cfg.keywords) 0 [] with
  | none => []
  | some results => (filterRelevantResults cfg term results).take (cfg.maxSources + 10)

/-! ## Content extraction and the research loop (`Spider.py`) -/

/-- An extracted source (`extract_content`'s return dict, lines 346-349).
Only the components later logic reads are carried: the text, the metadata's
`domain` (the key of the final reliability sort) and its `reliability`
tier. -/
structure Source where
  text : List Char
  domain : List Char
  reliability : RelLevel
deriving DecidableEq, Repr

/-- `UniversalResearchSpider.extract_content` (Spider.py lines 298-353).
`fetch url docType` stands for the doc-type-specific network fetch and
raw-text extraction (lines 310-327 and the helpers `_extract_pdf_content`,
`_extract_text_file`, `_extract_html_content`); `none` covers both an empty
extraction and any exception (caught at line 351, returning `None`).
The guard is line 329: `if not content or len(content.strip()) < 150:
return None`. -/
def extractContent (cfg : SpiderConfig) (fetch : List Char → DocType → Option (List Char))
    (url : List Char) (docType : DocType) : Option Source :=
  match fetch url docType with
  | none => none
  | some content =>
    if content.isEmpty || (stripL content).length < 150 then none
    else
      let domain := netloc url
      some { text := content, domain := domain,
             reliability := getReliabilityLevel
               (calculateReliability cfg.domainReliability cfg.keywords domain content) }

/-- The extraction loop of `research` (Spider.py lines 530-551): iterate
over the first `max_sources` filtered results; per hostname, skip once
`maxPerDomain` extractions from it have been accepted; accept an extraction
iff it is non-`None` and its text is strictly longer than 150 characters
(`if source and len(source['text']) > 150`, line 546).  `processed` models
the `processed_domains` counter dict (default 0). -/
def researchLoop (cfg : SpiderConfig) (fetch : List Char → DocType → Option (List Char)) :
    List SearchResult → (List Char → Nat) → List Source → List Source
  | [], _, sources => sources
  | r :: rs, processed, sources =>
    let domain := netloc r.url
    if maxPerDomain domain ≤ processed domain then
      researchLoop cfg fetch rs processed sources
    else
      match extractContent cfg fetch r.url r.docType with
      | some s =>
        if 150 < s.text.length then
          researchLoop cfg fetch rs
            (fun d => if d = domain then processed domain + 1 else processed d)
            (sources ++ [s])
        else researchLoop cfg fetch rs processed sources
      | none => researchLoop cfg fetch rs processed sources

/-- The EXTRACT stage and final ordering of `research` (Spider.py lines
526-559): run the extraction loop over `search_results[:max_sources]`,
then sort the sources descending by the reliability score of their
hostname (`self.domain_reliability.get(domain, 0.5)`, lines 556-559). -/
def researchSources (cfg : SpiderConfig) (fetch : List Char → DocType → Option (List Char))
    (searchResults : List SearchResult) : List Source :=
  let sources := researchLoop cfg fetch (searchResults.take cfg.maxSources) (fun _ => 0) []
  sortDesc (fun s => (lookupRel cfg.domainReliability s.domain).getD half) sources

/-! ## ContentCleaner (`ArtGenSys.py`)

The cleaning pipeline is a sequence of `re.sub`/line/paragraph transforms.
Each Python regex used is simple (literals, character classes, `?`, `+`,
`*`); every matcher below implements one pattern's leftmost/greedy (or
lazy, where the pattern is lazy) semantics directly, and a driver replays
`re.sub`'s leftmost non-overlapping scan. -/

/-- Settings dict of `ContentCleaner` with the `.get` defaults used in
`ArtGenSys.py` (`remove_citations`/`remove_source_markers`/
`remove_incomplete_paragraphs` default `True`, `min_paragraph_length`
default 50). -/
structure CleanSettings where
  removeCitations : Bool := true
  removeSourceMarkers : Bool := true
  removeIncompleteParagraphs : Bool := true
  minParagraphLength : Nat := 50

/-- The default settings (every key absent from the dict). -/
def defaultCleanSettings : CleanSettings := {}

/-- `re.sub` driver: at each position try the matcher `m`; a match returns
the replacement text and the input remaining after the match (every matcher
below consumes at least one character on success).  On a match, emit the
replacement and resume scanning after the match; otherwise emit the current
character and advance one position.  `fuel` (instantiated with the text
length) bounds the recursion. -/
def substAux (m : List Char → Option (List Char × List Char)) :
    Nat → List Char → List Char
  | 0, s => s
  | _ + 1, [] => []
  | fuel + 1, c :: cs =>
    match m (c :: cs) with
    | some (rep, rest) => rep ++ substAux m fuel rest
    | none => c :: substAux m fuel cs

/-- `re.sub pattern repl text` for an unanchored pattern. -/
def subst (m : List Char → Option (List Char × List Char)) (s : List Char) : List Char :=
  substAux m s.length s

/-- `re.sub` driver for a `^`-anchored pattern under `re.MULTILINE`: the
matcher is only tried at the start of the text and right after each
newline. -/
def substLineAux (m : List Char → Option (List Char × List Char)) :
    Nat → Bool → List Char → List Char
  | 0, _, s => s
  | _ + 1, _, [] => []
  | fuel + 1, atStart, c :: cs =>
    if atStart then
      match m (c :: cs) with
      | some (rep, rest) => rep ++ substLineAux m fuel false rest
      | none => c :: substLineAux m fuel (c = '\n') cs
    else c :: substLineAux m fuel (c = '\n') cs

/-- `re.sub` for a line-anchored pattern (`re.MULTILINE`). -/
def substLine (m : List Char → Option (List Char × List Char)) (s : List Char) : List Char :=
  substLineAux m s.length true s

/-- Matcher for `\[\d+\]` (numeric citation marker), replaced by nothing. -/
def mBracketNum : List Char → Option (List Char × List Char)
  | '[' :: rest =>
    let ds := rest.takeWhile isDigitPy
    if ds.isEmpty then none
    else
      match rest.dropWhile isDigitPy with
      | ']' :: r => some ([], r)
      | _ => none
  | _ => none

/-- The part of `\[?[Ss]ource:?\s*\d+\]?` after the optional opening
bracket: `[Ss]ource`, optional `:`, whitespace, one or more digits,
optional `]`.  Returns the remaining input. -/
def mSourceCore : List Char → Option (List Char)
  | c :: rest =>
    if (c = 'S' || c = 's') && startsWithL (chars "ource") rest then
      let rest := rest.drop 5
      let rest := match rest with | ':' :: r => r | r => r
      let rest2 := rest.dropWhile isSpacePy
      if (rest2.takeWhile isDigitPy).isEmpty then none
      else
        match rest2.dropWhile isDigitPy with
        | ']' :: r => some r
        | r => some r
    else none
  | [] => none

/-- Matcher for `\[?[Ss]ource:?\s*\d+\]?`, replaced by nothing. -/
def mSource : List Char → Option (List Char × List Char)
  | '[' :: rest =>
    match mSourceCore rest with
    | some r => some ([], r)
    | none => none
  | s => (mSourceCore s).map (fun r => ([], r))

/-- Matcher for `Ref:\s*\[[a-zA-Z0-9]+\]`, replaced by nothing. -/
def mRef (s : List Char) : Option (List Char × List Char) :=
  if startsWithL (chars "Ref:") s then
    let rest := (s.drop 4).dropWhile isSpacePy
    match rest with
    | '[' :: r2 =>
      if (r2.takeWhile isAlnumPy).isEmpty then none
      else
        match r2.dropWhile isAlnumPy with
        | ']' :: r3 => some ([], r3)
        | _ => none
    | _ => none
  else none

/-- Matcher for `\(\(https?://[^\)]+\)\)`, replaced by nothing. -/
def mUrlParen : List Char → Option (List Char × List Char)
  | '(' :: '(' :: rest =>
    if startsWithL (chars "http") rest then
      let rest := rest.drop 4
      let rest := match rest with | 's' :: r => r | r => r
      if startsWithL (chars "://") rest then
        let body := rest.drop 3
        if (body.takeWhile (fun c => c != ')')).isEmpty then none
        else
          match body.dropWhile (fun c => c != ')') with
          | ')' :: ')' :: r => some ([], r)
          | _ => none
      else none
    else none
  | _ => none

/-- Matcher for `:\s*\{[^}]*serpapi[^}]*\}`, replaced by nothing. -/
def mSerp : List Char → Option (List Char × List Char)
  | ':' :: rest =>
    match rest.dropWhile isSpacePy with
    | '\x7b' :: r2 =>
      let body := r2.takeWhile (fun c => c != '\x7d')
      if containsSub (chars "serpapi") body then
        match r2.dropWhile (fun c => c != '\x7d') with
        | '\x7d' :: r3 => some ([], r3)
        | _ => none
      else none
    | _ => none
  | _ => none

/-- A line matched by the multiline pattern `^Source: \[[0-9a-fA-F]+\]\n`
(the line's content is exactly `Source: [hex]`). -/
def isSourceHexLine (l : List Char) : Bool :=
  if startsWithL (chars "Source: [") l then
    let r := l.drop 9
    !(r.takeWhile isHexPy).isEmpty && r.dropWhile isHexPy == [']']
  else false

/-- `re.sub(r"^Source: \[[0-9a-fA-F]+\]\n", "", text, flags=re.MULTILINE)`:
every line (followed by a newline) whose content is exactly `Source: [hex]`
is removed together with its newline; a final line with no trailing newline
is never matched (the pattern requires the `\n`). -/
def removeSourceLines (s : List Char) : List Char :=
  let parts := splitOnC '\n' s
  match parts.getLast? with
  | some last => joinC '\n' ((parts.dropLast.filter (fun l => !isSourceHexLine l)) ++ [last])
  | none => s

/-- `ContentCleaner.remove_citations` (ArtGenSys.py lines 29-40). -/
def removeCitations (st : CleanSettings) (text : List Char) : List Char :=
  if !st.removeCitations then text
  else
    let text := subst mBracketNum text
    let text := subst mSource text
    let text := subst mRef text
    let text := subst mUrlParen text
    let text := subst mSerp text
    removeSourceLines text

/-- Matcher for `\[/?INST\]`, replaced by nothing. -/
def mInst : List Char → Option (List Char × List Char)
  | '[' :: rest =>
    let rest2 := match rest with | '/' :: r => r | r => r
    if startsWithL (chars "INST]") rest2 then some ([], rest2.drop 5) else none
  | _ => none

/-- Matcher for `\[\d+\]\s*$` under `re.MULTILINE`: a numeric marker, then
greedily as much whitespace as still leaves `$` satisfiable — everything
when the whitespace runs to the end of the text, otherwise up to (and
excluding) the last newline of the whitespace run; no match when the run
ends mid-line. -/
def mTrailingNum : List Char → Option (List Char × List Char)
  | '[' :: rest =>
    if (rest.takeWhile isDigitPy).isEmpty then none
    else
      match rest.dropWhile isDigitPy with
      | ']' :: r2 =>
        let run := r2.takeWhile isSpacePy
        let after := r2.dropWhile isSpacePy
        if after.isEmpty then some ([], [])
        else
          let revRun := run.reverse
          if (revRun.dropWhile (fun d => d != '\n')).isEmpty then none
          else
            let keep := '\n' :: (revRun.takeWhile (fun d => d != '\n')).reverse
            some ([], keep ++ after)
      | _ => none
  | _ => none

/-- `ContentCleaner.clean_source_markers` (ArtGenSys.py lines 149-157). -/
def cleanSourceMarkers (st : CleanSettings) (text : List Char) : List Char :=
  if !st.removeSourceMarkers then text
  else subst mTrailingNum (subst mInst text)

/-- Matcher for the line-anchored header patterns `^###\s+(.+)$`,
`^##\s+(.+)$`, `^#\s+(.+)$` (`re.MULTILINE`): the hash prefix, at least one
whitespace character (greedy, may cross newlines), then a nonempty
newline-free capture reaching the end of its line; replaced by
`open ++ capture ++ close`.  When the whitespace run extends to the end of
the text the greedy `\s+` backtracks just enough to leave the last
non-newline whitespace character as the capture. -/
def mHeader (hashes openT closeT : List Char) (s : List Char) :
    Option (List Char × List Char) :=
  if startsWithL hashes s then
    let rest := s.drop hashes.length
    let w := rest.takeWhile isSpacePy
    if w.isEmpty then none
    else
      let afterW := rest.dropWhile isSpacePy
      if !afterW.isEmpty then
        let cap := afterW.takeWhile (fun c => c != '\n')
        some (openT ++ cap ++ closeT, afterW.dropWhile (fun c => c != '\n'))
      else
        let revW := w.reverse
        let trailingNl := revW.takeWhile (fun c => c = '\n')
        let beforeNl := revW.dropWhile (fun c => c = '\n')
        match beforeNl with
        | [] => none
        | capCh :: pre =>
          if pre.isEmpty then none
          else some (openT ++ [capCh] ++ closeT, trailingNl.reverse)
  else none

/-- Find the close of a lazy `\*\*(.+?)\*\*` body: scanning left to right,
the earliest `**` preceded by a nonempty newline-free body.  `acc` holds
the reversed body so far. -/
def findBoldClose (acc : List Char) : List Char → Option (List Char × List Char)
  | [] => none
  | c :: cs =>
    if !acc.isEmpty && c = '*' && startsWithL (chars "*") cs then
      some (acc.reverse, cs.drop 1)
    else if c = '\n' then none
    else findBoldClose (c :: acc) cs

/-- Matcher for `\*\*(.+?)\*\*`, replaced by `<br>\n<strong>\1</strong>`. -/
def mBold : List Char → Option (List Char × List Char)
  | '*' :: '*' :: rest =>
    match findBoldClose [] rest with
    | some (body, r) =>
      some (chars "<br>\n<strong>" ++ body ++ chars "</strong>", r)
    | none => none
  | _ => none

/-- Matcher for `\*([^*]+?)\*`, replaced by `<em>\1</em>` (the body may
contain newlines: `[^*]` matches them). -/
def mEm : List Char → Option (List Char × List Char)
  | '*' :: rest =>
    let body := rest.takeWhile (fun c => c != '*')
    if body.isEmpty then none
    else
      match rest.dropWhile (fun c => c != '*') with
      | '*' :: r => some (chars "<em>" ++ body ++ chars "</em>", r)
      | _ => none
  | _ => none

/-- The bullet-list pass of `convert_markdown_to_html` (ArtGenSys.py lines
53-72): lines whose stripped form starts with `* ` or `- ` become `<li>`
items inside a `<ul>` block, closed when a non-item line follows or at the
end of the text. -/
def listLoop : Bool → List (List Char) → List (List Char)
  | false, [] => []
  | true, [] => [chars "</ul>"]
  | inList, line :: rest =>
    let stripped := stripL line
    if startsWithL (chars "* ") stripped || startsWithL (chars "- ") stripped then
      let item := chars "<li>" ++ stripL (stripped.drop 2) ++ chars "</li>"
      if inList then item :: listLoop true rest
      else chars "<ul>" :: item :: listLoop true rest
    else
      if inList then chars "</ul>" :: line :: listLoop false rest
      else line :: listLoop false rest

/-- `ContentCleaner.convert_markdown_to_html` (ArtGenSys.py lines 42-75). -/
def convertMarkdownToHtml (text : List Char) : List Char :=
  let text := substLine (mHeader (chars "###") (chars "<h3>") (chars "</h3>")) text
  let text := substLine (mHeader (chars "##") (chars "<h3>") (chars "</h3>")) text
  let text := substLine (mHeader (chars "#") (chars "<h2>") (chars "</h2>")) text
  let text := subst mBold text
  let text := subst mEm text
  joinC '\n' (listLoop false (splitOnC '\n' text))

/-- The JSON-fragment patterns of `remove_non_paragraph_content`
(ArtGenSys.py lines 93-96). -/
def isNoiseFragment (stripped : List Char) : Bool :=
  [chars "\x7b'id':", chars "\x7b\"id\":", chars "serpapi.com",
   chars "json_endpoint", chars "raw_html_file", chars "created_at",
   chars "processed_at"].any (fun pat => containsSub pat stripped)

/-- The per-line keep test of `remove_non_paragraph_content` (ArtGenSys.py
lines 77-106). -/
def keepContentLine (line : List Char) : Bool :=
  let stripped := stripL line
  if startsWithL (chars "<") stripped then true
  else if stripped.isEmpty then true
  else if isNoiseFragment stripped then false
  else if startsWithL (chars ":") stripped then false
  else if stripped.length < 20 && !(stripped.any isPunctPy) then false
  else true

/-- `ContentCleaner.remove_non_paragraph_content` (ArtGenSys.py lines
77-106). -/
def removeNonParagraphContent (text : List Char) : List Char :=
  joinC '\n' ((splitOnC '\n' text).filter keepContentLine)

/-- `re.split(r'\n\s*\n', text)`: a separator is a newline, whitespace, and
a final newline (greedy: the whole whitespace run ending at its last
newline).  `acc` holds the reversed current piece; `fuel` (instantiated
with the text length) bounds the recursion. -/
def splitParasAux : Nat → List Char → List Char → List (List Char)
  | 0, acc, s => [acc.reverse ++ s]
  | _ + 1, acc, [] => [acc.reverse]
  | fuel + 1, acc, c :: cs =>
    if c = '\n' then
      let run := cs.takeWhile isSpacePy
      let revRun := run.reverse
      if (revRun.dropWhile (fun d => d != '\n')).isEmpty then
        splitParasAux fuel (c :: acc) cs
      else
        let rest := (revRun.takeWhile (fun d => d != '\n')).reverse ++ cs.dropWhile isSpacePy
        acc.reverse :: splitParasAux fuel [] rest
    else splitParasAux fuel (c :: acc) cs

/-- `re.split(r'\n\s*\n', text)`. -/
def splitParas (s : List Char) : List (List Char) :=
  splitParasAux s.length [] s

/-- `re.split(r'[.!?]+\s+', para)`: a separator is a nonempty punctuation
run followed by nonempty whitespace. -/
def splitSentencesAux : Nat → List Char → List Char → List (List Char)
  | 0, acc, s => [acc.reverse ++ s]
  | _ + 1, acc, [] => [acc.reverse]
  | fuel + 1, acc, c :: cs =>
    if isPunctPy c then
      let rest1 := (c :: cs).dropWhile isPunctPy
      if (rest1.takeWhile isSpacePy).isEmpty then
        splitSentencesAux fuel (c :: acc) cs
      else acc.reverse :: splitSentencesAux fuel [] (rest1.dropWhile isSpacePy)
    else splitSentencesAux fuel (c :: acc) cs

/-- `re.split(r'[.!?]+\s+', para)`. -/
def splitSentences (s : List Char) : List (List Char) :=
  splitSentencesAux s.length [] s

/-- `re.search(r'[.!?]\s+([A-Z])', para)` followed by
`para[match.start() + 2:]` (ArtGenSys.py lines 139-141): find the first
sentence-ending punctuation followed by whitespace and an uppercase
letter, and drop everything up to and including the punctuation and ONE
following character (the first whitespace character). -/
def lowerChop : List Char → Option (List Char)
  | [] => none
  | c :: cs =>
    if isPunctPy c then
      let ws := cs.takeWhile isSpacePy
      let after := cs.dropWhile isSpacePy
      if !ws.isEmpty && (match after with | a :: _ => isUpperPy a | [] => false) then
        some (cs.drop 1)
      else lowerChop cs
    else lowerChop cs

/-- The per-paragraph transform of `remove_incomplete_paragraphs`
(ArtGenSys.py lines 116-145): markup paragraphs pass through unchanged;
short paragraphs are dropped; a paragraph not ending in `.!?":)]>` is cut
back to its last complete sentence or dropped; a paragraph starting with a
lowercase letter (excluding `e.g.`/`i.e.`/markup) is cut forward to its
next sentence start or dropped. -/
def processParagraph (minLength : Nat) (para0 : List Char) : Option (List Char) :=
  let sp := stripL para0
  if startsWithL (chars "<") sp && endsWithL (chars ">") sp then some para0
  else if containsSub (chars "<h2>") para0 || containsSub (chars "<h3>") para0 ||
      containsSub (chars "<ul>") para0 || containsSub (chars "<li>") para0 then some para0
  else
    let para := sp
    if para.length < minLength then none
    else
      let afterEnd : Option (List Char) :=
        match para.getLast? with
        | none => some para
        | some last =>
          if isPunctPy last || last = '"' || last = ':' || last = ')' ||
              last = ']' || last = '>' then some para
          else
            let sentences := splitSentences para
            if 1 < sentences.length then
              some (joinSep (chars ". ") sentences.dropLast ++ ['.'])
            else none
      match afterEnd with
      | none => none
      | some para =>
        match para with
        | [] => some []
        | p0 :: _ =>
          if isLowerPy p0 && !startsWithL (chars "e.g.") para &&
              !startsWithL (chars "i.e.") para && !startsWithL (chars "<") para then
            lowerChop para
          else some para

/-- `ContentCleaner.remove_incomplete_paragraphs` (ArtGenSys.py lines
108-147). -/
def removeIncompleteParagraphs (st : CleanSettings) (text : List Char) : List Char :=
  if !st.removeIncompleteParagraphs then text
  else
    joinSep (chars "\n\n")
      ((splitParas text).filterMap (processParagraph st.minParagraphLength))

/-- `re.sub(r'\n\x7b3,\x7d', '\n\n', text)`: collapse runs of three or more
newlines to exactly two. -/
def collapseNewlinesAux : Nat → List Char → List Char
  | 0, s => s
  | _ + 1, [] => []
  | fuel + 1, c :: cs =>
    if c = '\n' then
      let run := (c :: cs).takeWhile (fun d => d = '\n')
      let rest := (c :: cs).dropWhile (fun d => d = '\n')
      (if 3 ≤ run.length then chars "\n\n" else run) ++ collapseNewlinesAux fuel rest
    else c :: collapseNewlinesAux fuel cs

/-- Collapse runs of 3+ newlines to 2. -/
def collapseNewlines (s : List Char) : List Char :=
  collapseNewlinesAux s.length s

/-- `re.sub(r' \x7b2,\x7d', ' ', text)`: collapse runs of two or more
space characters to one (spaces only, not tabs). -/
def collapseSpacesAux : Nat → List Char → List Char
  | 0, s => s
  | _ + 1, [] => []
  | fuel + 1, c :: cs =>
    if c = ' ' then
      let run := (c :: cs).takeWhile (fun d => d = ' ')
      let rest := (c :: cs).dropWhile (fun d => d = ' ')
      (if 2 ≤ run.length then [' '] else run) ++ collapseSpacesAux fuel rest
    else c :: collapseSpacesAux fuel cs

/-- Collapse runs of 2+ spaces to 1. -/
def collapseSpaces (s : List Char) : List Char :=
  collapseSpacesAux s.length s

/-- `ContentCleaner.clean_content` (ArtGenSys.py lines 159-170): the whole
cleaning pipeline. -/
def cleanContent (st : CleanSettings) (text : List Char) : List Char :=
  let text := removeCitations st text
  let text := cleanSourceMarkers st text
  let text := convertMarkdownToHtml text
  let text := removeNonParagraphContent text
  let text := removeIncompleteParagraphs st text
  let text := collapseNewlines text
  let text := joinC '\n' ((splitOnC '\n' text).map rstripL)
  let text := collapseSpaces text
  stripL text

/-! ## Lemmas about the stable descending sort -/

section SortLemmas

variable {α κ : Type} [LinearOrder κ] (key : α → κ)

theorem insertDesc_perm (x : α) (l : List α) :
    List.Perm (insertDesc key x l) (x :: l) := by
  induction l with
  | nil => exact List.Perm.refl _
  | cons h t ih =>
    rw [insertDesc]
    split
    · exact ((ih.cons h).trans (List.Perm.swap x h t))
    · exact List.Perm.refl _

theorem sortDesc_perm (l : List α) : List.Perm (sortDesc key l) l := by
  induction l with
  | nil => exact List.Perm.refl _
  | cons x xs ih =>
    rw [sortDesc]
    exact (insertDesc_perm key x (sortDesc key xs)).trans (ih.cons x)

theorem pairwise_insertDesc (x : α) (l : List α)
    (hl : l.Pairwise (fun a b => key b ≤ key a)) :
    (insertDesc key x l).Pairwise (fun a b => key b ≤ key a) := by
  induction l with
  | nil => simp [insertDesc]
  | cons h t ih =>
    rw [insertDesc]
    rcases List.pairwise_cons.mp hl with ⟨hh, ht⟩
    split
    · rename_i hlt
      refine List.pairwise_cons.mpr ⟨?_, ih ht⟩
      intro y hy
      rcases List.mem_cons.mp ((insertDesc_perm key x t).mem_iff.mp hy) with h1 | hmem
      · exact h1 ▸ le_of_lt hlt
      · exact hh y hmem
    · rename_i hge
      refine List.pairwise_cons.mpr ⟨?_, hl⟩
      intro y hy
      rcases List.mem_cons.mp hy with h1 | hmem
      · exact h1 ▸ le_of_not_lt hge
      · exact le_trans (hh y hmem) (le_of_not_lt hge)

theorem sortDesc_pairwise (l : List α) :
    (sortDesc key l).Pairwise (fun a b => key b ≤ key a) := by
  induction l with
  | nil => simp [sortDesc]
  | cons x xs ih => exact pairwise_insertDesc key x _ ih

theorem filter_keyEq_insertDesc (s : κ) (x : α) (l : List α) :
    (insertDesc key x l).filter (fun y => decide (key y = s)) =
      if key x = s then x :: l.filter (fun y => decide (key y = s))
      else l.filter (fun y => decide (key y = s)) := by
  induction l with
  | nil => by_cases hx : key x = s <;> simp [insertDesc, hx]
  | cons h t ih =>
    rw [insertDesc]
    split
    · rename_i hlt
      by_cases hx : key x = s
      · have hh : ¬ key h = s := fun hh => absurd (hx ▸ hh ▸ hlt) (lt_irrefl _)
        simp [List.filter_cons, hx, hh, ih]
      · by_cases hh : key h = s <;> simp [List.filter_cons, hx, hh, ih]
    · by_cases hx : key x = s <;> by_cases hh : key h = s <;>
        simp [List.filter_cons, hx, hh]

theorem filter_keyEq_sortDesc (s : κ) (l : List α) :
    (sortDesc key l).filter (fun y => decide (key y = s)) =
      l.filter (fun y => decide (key y = s)) := by
  induction l with
  | nil => rfl
  | cons x xs ih =>
    rw [sortDesc, filter_keyEq_insertDesc]
    by_cases hx : key x = s <;> simp [hx, ih, List.filter_cons]

end SortLemmas

/-! ## Lemmas about the dedup/skip/score pass -/

theorem map_filter_comm {α β : Type} (f : α → β) (p : β → Bool) (l : List α) :
    (l.map f).filter p = (l.filter (fun a => p (f a))).map f := by
  induction l with
  | nil => rfl
  | cons x xs ih =>
    by_cases hx : p (f x) <;> simp [List.filter_cons, hx, ih]

theorem scoreLoop_fst (cfg : SpiderConfig) (term : List Char) :
    ∀ (rs : List SearchResult) (seen : List (List Char)),
      ∀ p ∈ scoreLoop cfg term rs seen, p.1 = scoreOf cfg term p.2 := by
  intro rs
  induction rs with
  | nil => intro seen p hp; simp [scoreLoop] at hp
  | cons r rs ih =>
    intro seen p hp
    rw [scoreLoop] at hp
    split at hp
    · exact ih seen p hp
    · split at hp
      · exact ih seen p hp
      · rcases List.mem_cons.mp hp with h1 | hmem
        · rw [h1]
        · exact ih _ p hmem

theorem scoreLoop_snd_sublist (cfg : SpiderConfig) (term : List Char) :
    ∀ (rs : List SearchResult) (seen : List (List Char)),
      ((scoreLoop cfg term rs seen).map Prod.snd).Sublist rs := by
  intro rs
  induction rs with
  | nil => intro seen; simp [scoreLoop]
  | cons r rs ih =>
    intro seen
    rw [scoreLoop]
    split
    · exact (ih seen).cons r
    · split
      · exact (ih seen).cons r
      · simpa using (ih (r.url :: seen)).cons₂ r

theorem scoreLoop_urls (cfg : SpiderConfig) (term : List Char) :
    ∀ (rs : List SearchResult) (seen : List (List Char)),
      ((scoreLoop cfg term rs seen).map (fun p => p.2.url)).Nodup ∧
      ∀ u ∈ (scoreLoop cfg term rs seen).map (fun p => p.2.url), u ∉ seen := by
  intro rs
  induction rs with
  | nil => intro seen; simp [scoreLoop]
  | cons r rs ih =>
    intro seen
    rw [scoreLoop]
    split
    · exact ih seen
    · split
      · exact ih seen
      · rename_i hseen _
        rcases ih (r.url :: seen) with ⟨hnd, hnotin⟩
        constructor
        · refine List.nodup_cons.mpr ⟨?_, hnd⟩
          intro hmem
          exact (hnotin _ hmem) (List.mem_cons_self _ _)
        · intro u hu
          rcases List.mem_cons.mp hu with h1 | hmem
          · exact h1 ▸ hseen
          · intro hus
            exact (hnotin u hmem) (List.mem_cons_of_mem _ hus)

theorem scoreLoop_noskip (cfg : SpiderConfig) (term : List Char) :
    ∀ (rs : List SearchResult) (seen : List (List Char)),
      ∀ p ∈ scoreLoop cfg term rs seen,
        cfg.skipDomains.any (fun sk => containsSub sk (lowerL p.2.url)) = false := by
  intro rs
  induction rs with
  | nil => intro seen p hp; simp [scoreLoop] at hp
  | cons r rs ih =>
    intro seen p hp
    rw [scoreLoop] at hp
    split at hp
    · exact ih seen p hp
    · split at hp
      · exact ih seen p hp
      · rename_i hskip
        rcases List.mem_cons.mp hp with h1 | hmem
        · rw [h1]
          exact Bool.not_eq_true _ ▸ (Bool.of_not_eq_true hskip)
        · exact ih _ p hmem

/-- Every result emitted by the dedup/skip/score pass is the FIRST element
of the input carrying its URL: a duplicated URL's first occurrence wins
(later ones are dropped by `seen_urls`), and an occurrence preceding a kept
result can never carry the same URL (it would either have entered
`seen_urls` or carry a skip-domain substring, as the skip test depends only
on the URL). -/
theorem scoreLoop_first (cfg : SpiderConfig) (term : List Char) :
    ∀ (rs : List SearchResult) (seen : List (List Char)),
      ∀ p ∈ scoreLoop cfg term rs seen,
        rs.find? (fun x => decide (x.url = p.2.url)) = some p.2 := by
  intro rs
  induction rs with
  | nil => intro seen p hp; simp [scoreLoop] at hp
  | cons r rs ih =>
    intro seen p hp
    rw [scoreLoop] at hp
    split at hp
    · rename_i hseen
      have hne : r.url ≠ p.2.url := by
        intro he
        have hmem : p.2.url ∈ (scoreLoop cfg term rs seen).map (fun q => q.2.url) :=
          List.mem_map_of_mem _ hp
        exact (scoreLoop_urls cfg term rs seen).2 _ hmem (he ▸ hseen)
      have hpred : decide (r.url = p.2.url) = false := decide_eq_false hne
      simp only [List.find?_cons, hpred]
      exact ih seen p hp
    · split at hp
      · rename_i hskip
        have hne : r.url ≠ p.2.url := by
          intro he
          have hns := scoreLoop_noskip cfg term rs seen p hp
          rw [← he] at hns
          rw [hns] at hskip
          exact Bool.false_ne_true hskip
        have hpred : decide (r.url = p.2.url) = false := decide_eq_false hne
        simp only [List.find?_cons, hpred]
        exact ih seen p hp
      · rcases List.mem_cons.mp hp with h1 | hmem
        · subst h1
          simp [List.find?_cons]
        · have hne : r.url ≠ p.2.url := by
            intro he
            have hmem2 : p.2.url ∈
                (scoreLoop cfg term rs (r.url :: seen)).map (fun q => q.2.url) :=
              List.mem_map_of_mem _ hmem
            exact (scoreLoop_urls cfg term rs (r.url :: seen)).2 _ hmem2
              (he ▸ List.mem_cons_self _ _)
          have hpred : decide (r.url = p.2.url) = false := decide_eq_false hne
          simp only [List.find?_cons, hpred]
          exact ih _ p hmem

/-! ## Claims C6 and C7: properties of `filterRelevantResults` -/

/-- C7: for every input list, the output of `filter_and_rank`
(`_filter_relevant_results`) contains no two results with the same URL,
and where the input held several results with the same URL the FIRST
occurrence wins: looking up each output result's URL among the input
results (`find?`, first match) returns that very result.  Moreover the
output contains no result whose (lower-cased, as the code tests) URL
contains any substring from the configured `skip_domains` set. -/
theorem claim_C7 (cfg : SpiderConfig) (term : List Char) (results : List SearchResult) :
    ((filterRelevantResults cfg term results).map SearchResult.url).Nodup ∧
    ((filterRelevantResults cfg term results).all
      (fun r => !cfg.skipDomains.any (fun sk => containsSub sk (lowerL r.url))) = true) ∧
    ((filterRelevantResults cfg term results).all
      (fun r => decide (results.find? (fun x => decide (x.url = r.url)) = some r)) = true) := by
  unfold filterRelevantResults
  refine ⟨?_, ?_, ?_⟩
  · rw [List.map_map]
    have hsub :
        ((sortDesc (fun p => p.1) (scoreLoop cfg term results [])).filter
            (fun p => decide (15 < p.1))).Sublist
          (sortDesc (fun p => p.1) (scoreLoop cfg term results [])) :=
      List.filter_sublist _
    have hperm :
        List.Perm
          ((sortDesc (fun p => p.1) (scoreLoop cfg term results [])).map
            (fun p => (SearchResult.url ∘ Prod.snd) p))
          ((scoreLoop cfg term results []).map (fun p => (SearchResult.url ∘ Prod.snd) p)) :=
      (sortDesc_perm _ _).map _
    have hnd := (scoreLoop_urls cfg term results []).1
    exact (hsub.map _).nodup (hperm.nodup_iff.mpr hnd)
  · rw [List.all_eq_true]
    intro r hr
    rcases List.mem_map.mp hr with ⟨p, hpF, rfl⟩
    have hpS : p ∈ scoreLoop cfg term results [] :=
      ((sortDesc_perm (fun p => p.1) _).mem_iff).mp (List.mem_of_mem_filter hpF)
    simp [scoreLoop_noskip cfg term results [] p hpS]
  · rw [List.all_eq_true]
    intro r hr
    rcases List.mem_map.mp hr with ⟨p, hpF, rfl⟩
    have hpS : p ∈ scoreLoop cfg term results [] :=
      ((sortDesc_perm (fun p => p.1) _).mem_iff).mp (List.mem_of_mem_filter hpF)
    exact decide_eq_true (scoreLoop_first cfg term results [] p hpS)

/-- C6: every result returned by `filter_and_rank`
(`_filter_relevant_results`) has composite score strictly greater than 15,
the returned list is sorted in non-increasing score order, and ties keep
their discovery (input) order: for every score value, the results carrying
it form a sublist of the input list (hence appear in input order). -/
theorem claim_C6 (cfg : SpiderConfig) (term : List Char) (results : List SearchResult) :
    ((filterRelevantResults cfg term results).all
        (fun r => decide (15 < scoreOf cfg term r)) = true) ∧
    (filterRelevantResults cfg term results).Pairwise
        (fun a b => scoreOf cfg term b ≤ scoreOf cfg term a) ∧
    ∀ s : ℤ, ((filterRelevantResults cfg term results).filter
        (fun r => decide (scoreOf cfg term r = s))).Sublist results := by
  have hmem15 : ∀ r ∈ filterRelevantResults cfg term results, 15 < scoreOf cfg term r := by
    intro r hr
    unfold filterRelevantResults at hr
    rcases List.mem_map.mp hr with ⟨p, hpF, rfl⟩
    have hp15 : decide (15 < p.1) = true := (List.mem_filter.mp hpF).2
    have hpS : p ∈ scoreLoop cfg term results [] :=
      ((sortDesc_perm (fun p => p.1) _).mem_iff).mp (List.mem_of_mem_filter hpF)
    have := scoreLoop_fst cfg term results [] p hpS
    rw [← this]
    exact of_decide_eq_true hp15
  refine ⟨?_, ?_, ?_⟩
  · rw [List.all_eq_true]
    intro r hr
    exact decide_eq_true (hmem15 r hr)
  · unfold filterRelevantResults
    have hsorted := sortDesc_pairwise (fun p : ℤ × SearchResult => p.1)
      (scoreLoop cfg term results [])
    have hF := hsorted.filter (fun p => decide (15 < p.1))
    rw [List.pairwise_map]
    refine hF.imp_of_mem ?_
    intro a b ha hb hab
    have ha' : a ∈ scoreLoop cfg term results [] :=
      ((sortDesc_perm (fun p => p.1) _).mem_iff).mp (List.mem_of_mem_filter ha)
    have hb' : b ∈ scoreLoop cfg term results [] :=
      ((sortDesc_perm (fun p => p.1) _).mem_iff).mp (List.mem_of_mem_filter hb)
    rw [← scoreLoop_fst cfg term results [] a ha', ← scoreLoop_fst cfg term results [] b hb']
    exact hab
  · intro s
    by_cases h15 : 15 < s
    · have step1 : (filterRelevantResults cfg term results).filter
          (fun r => decide (scoreOf cfg term r = s)) =
          (((sortDesc (fun p => p.1) (scoreLoop cfg term results [])).filter
              (fun p => decide (15 < p.1))).filter
            (fun p => decide (scoreOf cfg term p.2 = s))).map Prod.snd := by
        unfold filterRelevantResults
        rw [map_filter_comm]
      have step2 : (((sortDesc (fun p => p.1) (scoreLoop cfg term results [])).filter
              (fun p => decide (15 < p.1))).filter
            (fun p => decide (scoreOf cfg term p.2 = s))) =
          (((sortDesc (fun p => p.1) (scoreLoop cfg term results [])).filter
              (fun p => decide (15 < p.1))).filter
            (fun p => decide (p.1 = s))) := by
        apply List.filter_congr
        intro p hp
        have hpS : p ∈ scoreLoop cfg term results [] :=
          ((sortDesc_perm (fun p => p.1) _).mem_iff).mp (List.mem_of_mem_filter hp)
        rw [← scoreLoop_fst cfg term results [] p hpS]
      have step3 : (((sortDesc (fun p => p.1) (scoreLoop cfg term results [])).filter
              (fun p => decide (15 < p.1))).filter
            (fun p => decide (p.1 = s))) =
          ((sortDesc (fun p => p.1) (scoreLoop cfg term results [])).filter
            (fun p => decide (p.1 = s))) := by
        rw [List.filter_filter]
        apply List.filter_congr
        intro p _
        by_cases hps : p.1 = s
        · simp [hps, h15]
        · simp [hps]
      have step4 : ((sortDesc (fun p => p.1) (scoreLoop cfg term results [])).filter
            (fun p => decide (p.1 = s))) =
          ((scoreLoop cfg term results []).filter (fun p => decide (p.1 = s))) :=
        filter_keyEq_sortDesc (fun p : ℤ × SearchResult => p.1) s _
      rw [step1, step2, step3, step4]
      exact ((List.filter_sublist _).map Prod.snd).trans
        (scoreLoop_snd_sublist cfg term results [])
    · have : (filterRelevantResults cfg term results).filter
          (fun r => decide (scoreOf cfg term r = s)) = [] := by
        rw [List.filter_eq_nil_iff]
        intro r hr
        simp only [decide_eq_true_eq]
        intro hs
        exact h15 (hs ▸ hmem15 r hr)
      rw [this]
      exact List.nil_sublist _

/-! ## Claims C8, C9, C10 -/

/-- C8: `QueryPlanner` (`_build_search_queries`) with exactly 3 keywords
produces exactly the 18 queries below in order: 9 high (3 keywords × 3
academic site scopes, grouped per keyword), 6 medium per-keyword, the
combined medium query, and 2 low encyclopedic queries; with no keywords,
only the unqualified combined query and the 2 encyclopedic queries. -/
theorem claim_C8 (term k1 k2 k3 : List Char) :
    buildSearchQueries term [k1, k2, k3] =
      [(Priority.high, term ++ chars " " ++ k1 ++ chars " site:edu"),
       (Priority.high, term ++ chars " " ++ k1 ++ chars " site:ac.uk"),
       (Priority.high, term ++ chars " " ++ k1 ++ chars " site:ac.za"),
       (Priority.high, term ++ chars " " ++ k2 ++ chars " site:edu"),
       (Priority.high, term ++ chars " " ++ k2 ++ chars " site:ac.uk"),
       (Priority.high, term ++ chars " " ++ k2 ++ chars " site:ac.za"),
       (Priority.high, term ++ chars " " ++ k3 ++ chars " site:edu"),
       (Priority.high, term ++ chars " " ++ k3 ++ chars " site:ac.uk"),
       (Priority.high, term ++ chars " " ++ k3 ++ chars " site:ac.za"),
       (Priority.medium, term ++ chars " " ++ k1 ++ chars " research"),
       (Priority.medium, term ++ chars " " ++ k1 ++ chars " institute"),
       (Priority.medium, term ++ chars " " ++ k2 ++ chars " research"),
       (Priority.medium, term ++ chars " " ++ k2 ++ chars " institute"),
       (Priority.medium, term ++ chars " " ++ k3 ++ chars " research"),
       (Priority.medium, term ++ chars " " ++ k3 ++ chars " institute"),
       (Priority.medium, term ++ chars " " ++ (k1 ++ chars " " ++ k2)),
       (Priority.low, term ++ chars " site:wikipedia.org"),
       (Priority.low, term ++ chars " site:britannica.com")] ∧
    buildSearchQueries term [] =
      [(Priority.medium, term ++ chars " "),
       (Priority.low, term ++ chars " site:wikipedia.org"),
       (Priority.low, term ++ chars " site:britannica.com")] := by
  constructor
  · rfl
  · simp [buildSearchQueries, joinSep]

/-- C9: `_get_reliability_level` maps a score to `very_high` iff it is at
least 0.95, to `high` iff it is in [0.85, 0.95), to `medium` iff it is in
[0.75, 0.85), and to `low` iff it is below 0.75; in particular the six
boundary examples of the claim hold. -/
theorem claim_C9 (s : ℚ) :
    (getReliabilityLevel s = .veryHigh ↔ 0.95 ≤ s) ∧
    (getReliabilityLevel s = .high ↔ 0.85 ≤ s ∧ s < 0.95) ∧
    (getReliabilityLevel s = .medium ↔ 0.75 ≤ s ∧ s < 0.85) ∧
    (getReliabilityLevel s = .low ↔ s < 0.75) ∧
    getReliabilityLevel 0.95 = .veryHigh ∧
    getReliabilityLevel 0.94999 = .high ∧
    getReliabilityLevel 0.85 = .high ∧
    getReliabilityLevel 0.849 = .medium ∧
    getReliabilityLevel 0.75 = .medium ∧
    getReliabilityLevel 0.749 = .low := by
  refine ⟨?_, ?_, ?_, ?_, by norm_num [getReliabilityLevel],
    by norm_num [getReliabilityLevel], by norm_num [getReliabilityLevel],
    by norm_num [getReliabilityLevel], by norm_num [getReliabilityLevel],
    by norm_num [getReliabilityLevel]⟩ <;>
  unfold getReliabilityLevel <;>
  split_ifs with h1 h2 h3 <;> constructor <;> intro hx <;>
  first
    | rfl
    | linarith
    | exact ⟨by linarith, by linarith⟩
    | exact absurd hx (by decide)

/-- C10: the orchestrator's per-hostname cap tests the bare substrings
`edu` / `ac.`, so the non-academic hostname `medusa.com` gets the academic
cap 5 while the filter's academic bonus (which requires `.edu` / `.ac.` /
`university` / `institute`) does not fire on it; conversely
`university.com` gets the bonus but only cap 3. -/
theorem claim_C10 :
    maxPerDomain (chars "medusa.com") = 5 ∧
    eduDomainBonus (chars "medusa.com") = 0 ∧
    maxPerDomain (chars "university.com") = 3 ∧
    eduDomainBonus (chars "university.com") = 15 ∧
    maxPerDomain (chars "example.com") = 3 := by
  exact ⟨by decide, by decide, by decide, by decide, by decide⟩

/-! ## Claim C1: the reliability component of the composite score -/

/-- The spec's scoring formula exceeds the code's score by exactly 10 on
unknown hostnames and agrees on known ones. -/
theorem scoreSpecC1_sub_scoreOf (cfg : SpiderConfig) (term : List Char) (r : SearchResult) :
    scoreSpecC1 cfg term r =
      scoreOf cfg term r +
        (if (lookupRel cfg.domainReliability (netloc r.url)).isSome then 0 else 10) := by
  unfold scoreSpecC1 scoreOf
  cases h : lookupRel cfg.domainReliability (netloc r.url) with
  | none =>
    have h10 : pyInt (half * 20) = 10 := by
      rw [half_eq]
      norm_num [pyInt]
    simp only [h, Option.getD_none, Option.isSome_none, Bool.false_eq_true, if_false, h10]
    ring
  | some v =>
    simp only [h, Option.getD_some, Option.isSome_some, if_true]
    ring

/-- C1 counterexample: in `_filter_relevant_results` a hostname absent from
the flattened reliability map receives +0, not the claimed
+10 = floor(0.5 × 20): for a low-priority result from an unknown hostname
with no other matching signal the code computes score 10 (and filters the
result out, since 10 ≤ 15), while the spec's formula (`scoreSpecC1`)
computes 20 (which would be kept). -/
theorem claim_C1_counterexample :
    scoreOf ⟨[], [], [], 50, []⟩ (chars "t")
      ⟨chars "https://unknown.example/a", [], [], .html, .low⟩ = 10 ∧
    scoreSpecC1 ⟨[], [], [], 50, []⟩ (chars "t")
      ⟨chars "https://unknown.example/a", [], [], .html, .low⟩ = 20 ∧
    filterRelevantResults ⟨[], [], [], 50, []⟩ (chars "t")
      [⟨chars "https://unknown.example/a", [], [], .html, .low⟩] = [] := by
  refine ⟨by decide, ?_, by decide⟩
  rw [scoreSpecC1_sub_scoreOf]
  have h1 : scoreOf ⟨[], [], [], 50, []⟩ (chars "t")
      ⟨chars "https://unknown.example/a", [], [], .html, .low⟩ = 10 := by decide
  rw [h1]
  rfl

/-- C1 amended: the composite score adds `int(reliability × 20)` exactly
for hostnames present in the flattened map; the guarded lookup never fails,
and a hostname absent from the map contributes +0, so the spec's
default-0.5 formula overshoots the code's score by exactly 10 on unknown
hostnames and agrees on known ones. -/
theorem claim_C1_amended (cfg : SpiderConfig) (term : List Char) (r : SearchResult) :
    scoreSpecC1 cfg term r =
      scoreOf cfg term r +
        (if (lookupRel cfg.domainReliability (netloc r.url)).isSome then 0 else 10) :=
  scoreSpecC1_sub_scoreOf cfg term r

/-! ## Claim C2: failure semantics of `search_serpapi` -/

/-- C2 counterexample: with two queries answered — the first returning one
good result, the second raising — `search_serpapi` returns `[]`,
discarding the already-accumulated result; had the second query merely
returned no results, that same result would have been filtered, kept and
returned.  So a single query failure does NOT leave earlier results
intact: the top-level `try` aborts the whole search. -/
theorem claim_C2_counterexample :
    searchSerpapi ⟨[], [], [], 2, []⟩ (chars "t")
      (fun i => ([Except.ok [⟨chars "https://example.com/a", [], []⟩],
                  Except.error ()].getD i (Except.ok []))) = [] ∧
    searchSerpapi ⟨[], [], [], 2, []⟩ (chars "t")
      (fun i => ([Except.ok [⟨chars "https://example.com/a", [], []⟩]].getD i
                  (Except.ok []))) =
      [⟨chars "https://example.com/a", [], [], .html, .medium⟩] := by
  refine ⟨by decide, by decide⟩

theorem processRaws_length_le (cfg : SpiderConfig) (pri : Priority) :
    ∀ (raws : List RawResult) (acc : List SearchResult),
      acc.length ≤ (processRaws cfg pri raws acc).length := by
  intro raws
  induction raws with
  | nil => intro acc; simp [processRaws]
  | cons raw raws ih =>
    intro acc
    rw [processRaws]
    split
    · exact ih acc
    · split
      · exact le_trans (by simp) (ih _)
      · exact ih acc

theorem accAfter_length_le (cfg : SpiderConfig)
    (resp : Nat → Except Unit (List RawResult)) :
    ∀ (qs : List (Priority × List Char)) (i : Nat) (acc : List SearchResult),
      acc.length ≤ (accAfter cfg resp qs i acc).length := by
  intro qs
  induction qs with
  | nil => intro i acc; simp [accAfter]
  | cons q qs ih =>
    intro i acc
    rcases q with ⟨pri, s⟩
    rw [accAfter]
    cases resp i with
    | error e => exact Nat.le_refl _
    | ok raws => exact le_trans (processRaws_length_le cfg pri raws acc) (ih _ _)

theorem searchLoop_error_none (cfg : SpiderConfig)
    (resp : Nat → Except Unit (List RawResult)) :
    ∀ (qs : List (Priority × List Char)) (k i : Nat) (acc : List SearchResult),
      k < qs.length →
      resp (i + k) = Except.error () →
      (∀ j, j < k → resp (i + j) ≠ Except.error ()) →
      (accAfter cfg resp (qs.take k) i acc).length < cfg.maxSources →
      searchLoop cfg resp qs i acc = none := by
  intro qs
  induction qs with
  | nil => intro k i acc hk; simp at hk
  | cons q qs ih =>
    intro k i acc hk herr hok hlen
    rcases q with ⟨pri, s⟩
    rw [searchLoop]
    cases k with
    | zero =>
      simp only [Nat.add_zero] at herr
      rw [herr]
    | succ k' =>
      cases hr : resp i with
      | error e =>
        cases e
        exact absurd (by simpa using hr) (hok 0 (Nat.succ_pos _))
      | ok raws =>
        have hacc : (accAfter cfg resp (qs.take k') (i + 1)
            (processRaws cfg pri raws acc)).length < cfg.maxSources := by
          have : accAfter cfg resp ((⟨pri, s⟩ :: qs).take (k' + 1)) i acc =
              accAfter cfg resp (qs.take k') (i + 1) (processRaws cfg pri raws acc) := by
            simp [accAfter, hr]
          rw [this] at hlen
          exact hlen
        have hbreak : ¬ cfg.maxSources ≤ (processRaws cfg pri raws acc).length := by
          intro hle
          exact absurd (lt_of_le_of_lt
            (le_trans hle (accAfter_length_le cfg resp _ _ _)) hacc) (lt_irrefl _)
        simp only [hbreak, if_false]
        refine ih k' (i + 1) _ (by simpa using hk) ?_ ?_ hacc
        · rw [show i + 1 + k' = i + (k' + 1) by omega]
          exact herr
        · intro j hj
          rw [show i + 1 + j = i + (j + 1) by omega]
          exact hok (j + 1) (by omega)

/-- C2 amended: an exception while searching ANY query that the loop
reaches (i.e. every earlier query succeeded and the accumulated results
were still below `max_sources`) makes `search_serpapi` return `[]`: the
single top-level `try` discards the results accumulated from earlier
queries instead of keeping them.  The run itself never crashes — the
handler converts the exception into the empty list. -/
theorem claim_C2_amended (cfg : SpiderConfig) (term : List Char)
    (resp : Nat → Except Unit (List RawResult)) (k : Nat)
    (hk : k < (buildSearchQueries term cfg.keywords).length)
    (herr : resp k = Except.error ())
    (hok : ∀ j, j < k → resp j ≠ Except.error ())
    (hlen : (accAfter cfg resp ((buildSearchQueries term cfg.keywords).take k) 0 []).length
      < cfg.maxSources) :
    searchSerpapi cfg term resp = [] := by
  unfold searchSerpapi
  rw [searchLoop_error_none cfg resp (buildSearchQueries term cfg.keywords) k 0 [] hk
    (by simpa using herr) (fun j hj => by simpa using hok j hj) hlen]

/-- Witness for `claim_C2_amended`: the concrete two-response scenario. -/
theorem claim_C2_amended_witness :
    searchSerpapi ⟨[], [], [], 2, []⟩ (chars "t")
      (fun i => ([Except.ok [⟨chars "https://example.com/a", [], []⟩],
                  Except.error ()].getD i (Except.ok []))) = [] := by
  refine claim_C2_amended ⟨[], [], [], 2, []⟩ (chars "t") _ 1 (by decide) (by decide)
    (fun j hj => ?_) (by decide)
  have hj0 : j = 0 := by omega
  subst hj0
  decide

/-! ## Claims C3 and C4: the research extraction loop -/

theorem extractContent_domain (cfg : SpiderConfig)
    (fetch : List Char → DocType → Option (List Char)) (url : List Char)
    (dt : DocType) (s : Source) :
    extractContent cfg fetch url dt = some s → s.domain = netloc url := by
  unfold extractContent
  intro h
  split at h
  · exact absurd h (by simp)
  · split at h
    · exact absurd h (by simp)
    · injection h with h
      rw [← h]

theorem researchLoop_count (cfg : SpiderConfig)
    (fetch : List Char → DocType → Option (List Char)) :
    ∀ (rs : List SearchResult) (processed : List Char → Nat) (sources : List Source)
      (d : List Char),
      (sources.filter (fun s => decide (s.domain = d))).length ≤ processed d →
      processed d ≤ maxPerDomain d →
      ((researchLoop cfg fetch rs processed sources).filter
          (fun s => decide (s.domain = d))).length ≤ maxPerDomain d := by
  intro rs
  induction rs with
  | nil =>
    intro processed sources d h1 h2
    simp only [researchLoop]
    exact le_trans h1 h2
  | cons r rs ih =>
    intro processed sources d h1 h2
    simp only [researchLoop]
    by_cases hcap : maxPerDomain (netloc r.url) ≤ processed (netloc r.url)
    · rw [if_pos hcap]
      exact ih processed sources d h1 h2
    · rw [if_neg hcap]
      split
      next s hx =>
        have hsd : s.domain = netloc r.url :=
          extractContent_domain cfg fetch r.url r.docType s hx
        by_cases hlen : 150 < s.text.length
        case pos =>
          rw [if_pos hlen]
          by_cases hd : d = netloc r.url
          · subst hd
            refine ih _ _ (netloc r.url) ?_ ?_
            · have hps : decide (s.domain = netloc r.url) = true := decide_eq_true hsd
              have hone : List.filter (fun x => decide (x.domain = netloc r.url)) [s] = [s] := by
                simp [hps]
              rw [if_pos rfl, List.filter_append, hone, List.length_append,
                List.length_cons, List.length_nil]
              omega
            · rw [if_pos rfl]
              omega
          · refine ih _ _ d ?_ ?_
            · have hps : decide (s.domain = d) = false :=
                decide_eq_false (fun h => hd (by rw [← h, hsd]))
              have hnil : List.filter (fun x => decide (x.domain = d)) [s] = [] := by
                simp [hps]
              rw [if_neg hd, List.filter_append, hnil, List.append_nil]
              exact h1
            · rw [if_neg hd]
              exact h2
        case neg =>
          rw [if_neg hlen]
          exact ih processed sources d h1 h2
      next =>
        exact ih processed sources d h1 h2

theorem researchLoop_textlen (cfg : SpiderConfig)
    (fetch : List Char → DocType → Option (List Char)) :
    ∀ (rs : List SearchResult) (processed : List Char → Nat) (sources : List Source),
      (∀ s ∈ sources, 150 < s.text.length) →
      ∀ s ∈ researchLoop cfg fetch rs processed sources, 150 < s.text.length := by
  intro rs
  induction rs with
  | nil =>
    intro processed sources hs
    simp only [researchLoop]
    exact hs
  | cons r rs ih =>
    intro processed sources hs
    simp only [researchLoop]
    by_cases hcap : maxPerDomain (netloc r.url) ≤ processed (netloc r.url)
    · rw [if_pos hcap]
      exact ih processed sources hs
    · rw [if_neg hcap]
      split
      next s0 _ =>
        by_cases hlen : 150 < s0.text.length
        case pos =>
          rw [if_pos hlen]
          refine ih _ _ ?_
          intro s hsmem
          rcases List.mem_append.mp hsmem with hmem | hmem
          · exact hs s hmem
          · rw [List.mem_singleton.mp hmem]
            exact hlen
        case neg =>
          rw [if_neg hlen]
          exact ih processed sources hs
      next =>
        exact ih processed sources hs

set_option maxRecDepth 40000 in
/-- C3 counterexample: with `max_sources = 5` and six filtered results —
four from `a.com` (non-academic, cap 3), one from `b.com`, one from
`c.com`, every extraction succeeding with 200 characters — the orchestrator
extracts only 4 sources and never reaches the `c.com` result: the loop
iterates over `search_results[:max_sources]` only, so the skipped
fourth `a.com` result still consumed a slot of the attempt window.  Under
the claim ("skipped without counting against the overall attempt budget")
the `c.com` result would have been attempted and a fifth source
extracted. -/
theorem claim_C3_counterexample :
    (researchSources ⟨[], [], [], 5, []⟩ (fun _ _ => some (List.replicate 200 'a'))
      [⟨chars "https://a.com/1", [], [], .html, .high⟩,
       ⟨chars "https://a.com/2", [], [], .html, .high⟩,
       ⟨chars "https://a.com/3", [], [], .html, .high⟩,
       ⟨chars "https://a.com/4", [], [], .html, .high⟩,
       ⟨chars "https://b.com/1", [], [], .html, .high⟩,
       ⟨chars "https://c.com/1", [], [], .html, .high⟩]).length = 4 ∧
    chars "c.com" ∉
      (researchSources ⟨[], [], [], 5, []⟩ (fun _ _ => some (List.replicate 200 'a'))
        [⟨chars "https://a.com/1", [], [], .html, .high⟩,
         ⟨chars "https://a.com/2", [], [], .html, .high⟩,
         ⟨chars "https://a.com/3", [], [], .html, .high⟩,
         ⟨chars "https://a.com/4", [], [], .html, .high⟩,
         ⟨chars "https://b.com/1", [], [], .html, .high⟩,
         ⟨chars "https://c.com/1", [], [], .html, .high⟩]).map Source.domain := by
  refine ⟨by decide, by decide⟩

/-- C3 amended: the extraction loop of `research` does enforce the
per-hostname cap — every hostname contributes at most `maxPerDomain`
(5 when `edu` or `ac.` occurs in it, 3 otherwise) extracted sources, so 6
same-hostname non-academic results yield at most 3 sources — but capped
results are skipped only within the fixed window of the first
`max_sources` filtered results: a skip still occupies its window slot and
does not let a result beyond the window be attempted. -/
theorem claim_C3_amended (cfg : SpiderConfig)
    (fetch : List Char → DocType → Option (List Char))
    (searchResults : List SearchResult) (d : List Char) :
    ((researchSources cfg fetch searchResults).filter
        (fun s => decide (s.domain = d))).length ≤ maxPerDomain d := by
  unfold researchSources
  have hperm := ((sortDesc_perm
      (fun s : Source => (lookupRel cfg.domainReliability s.domain).getD half)
      (researchLoop cfg fetch (searchResults.take cfg.maxSources) (fun _ => 0) [])).filter
    (fun s => decide (s.domain = d)))
  rw [hperm.length_eq]
  exact researchLoop_count cfg fetch _ (fun _ => 0) [] d (by simp) (by simp [maxPerDomain])

set_option maxRecDepth 40000 in
/-- C4 counterexample: an extraction whose text is exactly 150 characters
is NOT accepted by the orchestrator: `extract_content` returns it (the
rejection guard is `< 150` on the stripped text) but `research` requires
`len(source['text']) > 150` strictly, so the source list stays empty. -/
theorem claim_C4_counterexample :
    extractContent ⟨[], [], [], 5, []⟩ (fun _ _ => some (List.replicate 150 'a'))
      (chars "https://a.com/x") .html ≠ none ∧
    researchSources ⟨[], [], [], 5, []⟩ (fun _ _ => some (List.replicate 150 'a'))
      [⟨chars "https://a.com/x", [], [], .html, .high⟩] = [] := by
  refine ⟨by decide, by decide⟩

/-- C4 amended: `extract_content` returns `None` whenever the stripped
text is shorter than 150 characters, and the orchestrator accepts exactly
the non-`None` extractions whose text is STRICTLY longer than 150
characters — an extraction of exactly 150 characters is rejected. -/
theorem claim_C4_amended :
    (∀ (cfg : SpiderConfig) (fetch : List Char → DocType → Option (List Char))
        (url : List Char) (dt : DocType) (c : List Char),
      fetch url dt = some c → (stripL c).length < 150 →
      extractContent cfg fetch url dt = none) ∧
    (∀ (cfg : SpiderConfig) (fetch : List Char → DocType → Option (List Char))
        (searchResults : List SearchResult),
      (researchSources cfg fetch searchResults).all
        (fun s => decide (150 < s.text.length)) = true) := by
  constructor
  · intro cfg fetch url dt c hc hlen
    unfold extractContent
    rw [hc]
    simp [hlen]
  · intro cfg fetch searchResults
    rw [List.all_eq_true]
    intro s hs
    refine decide_eq_true ?_
    unfold researchSources at hs
    have hmem := (sortDesc_perm
        (fun s : Source => (lookupRel cfg.domainReliability s.domain).getD half)
        (researchLoop cfg fetch (searchResults.take cfg.maxSources) (fun _ => 0) [])).mem_iff.mp hs
    exact researchLoop_textlen cfg fetch _ (fun _ => 0) [] (by simp) s hmem

/-- Witness for `claim_C4_amended`: a 2-character fetch is rejected by
`extract_content`. -/
theorem claim_C4_amended_witness :
    extractContent ⟨[], [], [], 5, []⟩ (fun _ _ => some (chars "hi"))
      (chars "https://a.com/x") .html = none :=
  claim_C4_amended.1 ⟨[], [], [], 5, []⟩ (fun _ _ => some (chars "hi"))
    (chars "https://a.com/x") .html (chars "hi") rfl (by decide)

/-! ## Claim C5: idempotence of `ContentCleaner.clean_content` -/

set_option maxRecDepth 100000 in
/-- C5: `clean_content` is NOT idempotent, and the difference is not a
whitespace-only one.  On the 51-character paragraph below (double-spaced,
ending in `.`), the first pass keeps the paragraph — the
`min_paragraph_length = 50` gate of `remove_incomplete_paragraphs` runs
BEFORE the two-space collapse — and then collapses it to 39 characters;
the second pass drops the now-short paragraph entirely, returning the
empty text.  The spec's contract ("re-running on cleaned output must not
change it further except for whitespace collapse") names the intent, so
the order of the length gate and the whitespace collapse in the code is
the bug. -/
theorem claim_C5_code_bug :
    cleanContent defaultCleanSettings
        (chars "Ab  cd  ef  gh  ij  kl  mn  op  qr  st  uv  wx  yz.") =
      chars "Ab cd ef gh ij kl mn op qr st uv wx yz." ∧
    cleanContent defaultCleanSettings (cleanContent defaultCleanSettings
        (chars "Ab  cd  ef  gh  ij  kl  mn  op  qr  st  uv  wx  yz.")) = [] := by
  refine ⟨by decide, by decide⟩

end Viincci





